import Mathlib

/-!
Verification of the local-fs storage library (Go) against its
natural-language specification.

The development shallowly embeds the pieces of the source the claims talk
about:

- the AES-CFB encrypt/decrypt transform of crypt.go and
  storage_encrypted.go, modelled over an abstract 16-byte block function
  (the CFB feedback structure is taken from the source; the AES block
  permutation itself is abstract and passed as a parameter);
- the filesystem-facing operations of PlaintextStorage and
  EncryptedStorage, modelled as pure state transformers over an
  association-list filesystem;
- the raw dirent-record scanning loop of listDirectory and countFiles,
  modelled byte-exactly over the scratch buffer, with explicit outcomes
  for Go runtime panics and non-termination.

Machine integers only appear as record fields decoded from bytes, all
arithmetic is on Nat after the decode, matching the Go code which widens
to int before use.
-/

namespace LocalFS

/-- Byte sequences; every element is intended to lie below 256, which the
XOR transform preserves and never needs as a hypothesis. -/
abbrev Bytes := List Nat

/-- aes.BlockSize in Go: 16 bytes, also the IV length of the ciphertext
layout IV followed by cipher stream. -/
def aesBlockSize : Nat := 16

/-- aes.NewCipher accepts keys of exactly 16, 24 or 32 bytes and fails
otherwise (crypt.go obtains the cipher this way in Encrypt and Decrypt). -/
def aesKeyOk (key : Bytes) : Bool :=
  key.length == 16 || key.length == 24 || key.length == 32

/-- One CFB encryption pass (cipher.NewCFBEncrypter followed by
XORKeyStream in crypt.go): the register starts at the IV, each 16-byte
plaintext segment is XORed with the block function of the register, and
the produced ciphertext segment becomes the next register value.  The
first argument is fuel, always instantiated with the plaintext length;
each step consumes a nonempty segment so the fuel never runs out. -/
def cfbEncGo (blockE : Bytes → Bytes) : Nat → Bytes → Bytes → Bytes
  | _, _, [] => []
  | 0, _, _ => []
  | fuel + 1, reg, p =>
    let ks := blockE reg
    let c := List.zipWith Nat.xor (p.take aesBlockSize) ks
    c ++ cfbEncGo blockE fuel c (p.drop aesBlockSize)

/-- CFB encryption of a whole plaintext, register seeded with the IV. -/
def cfbEncrypt (blockE : Bytes → Bytes) (iv p : Bytes) : Bytes :=
  cfbEncGo blockE p.length iv p

/-- One CFB decryption pass (cipher.NewCFBDecrypter followed by
XORKeyStream): each ciphertext segment is XORed with the block function
of the register, and the raw ciphertext segment becomes the next
register value. -/
def cfbDecGo (blockE : Bytes → Bytes) : Nat → Bytes → Bytes → Bytes
  | _, _, [] => []
  | 0, _, _ => []
  | fuel + 1, reg, c =>
    let ks := blockE reg
    let p := List.zipWith Nat.xor (c.take aesBlockSize) ks
    p ++ cfbDecGo blockE fuel (c.take aesBlockSize) (c.drop aesBlockSize)

/-- CFB decryption of a whole cipher stream, register seeded with the IV. -/
def cfbDecrypt (blockE : Bytes → Bytes) (iv c : Bytes) : Bytes :=
  cfbDecGo blockE c.length iv c

/-- Encrypt of crypt.go and EncryptedStorage.encrypt: obtain the AES
cipher for the key (failing on an invalid key length), draw a fresh
16-byte IV (passed here as the iv argument, standing for the random
source), and return the IV concatenated with the CFB cipher stream. -/
def goEncrypt (blockE : Bytes → Bytes) (key iv data : Bytes) :
    Except String Bytes :=
  if aesKeyOk key then
    Except.ok (iv ++ cfbEncrypt blockE iv data)
  else
    Except.error "crypto/aes: invalid key size"

/-- Decrypt of crypt.go and EncryptedStorage.decrypt: obtain the AES
cipher for the key, reject inputs shorter than the 16-byte IV with the
invalid-blocksize error, otherwise split the IV off and run the inverse
CFB transform over the remainder. -/
def goDecrypt (blockE : Bytes → Bytes) (key data : Bytes) :
    Except String Bytes :=
  if aesKeyOk key then
    if data.length < aesBlockSize then
      Except.error
        ("invalid blocksize expected 16 but actual is " ++ toString data.length)
    else
      Except.ok (cfbDecrypt blockE (data.take aesBlockSize) (data.drop aesBlockSize))
  else
    Except.error "crypto/aes: invalid key size"

theorem zipWith_xor_cancel :
    ∀ (a ks : Bytes), a.length ≤ ks.length →
      List.zipWith Nat.xor (List.zipWith Nat.xor a ks) ks = a := by
  intro a
  induction a with
  | nil => intro ks _; simp
  | cons x xs ih =>
    intro ks hle
    cases ks with
    | nil => simp at hle
    | cons k kt =>
      simp only [List.zipWith]
      have hx : Nat.xor (Nat.xor x k) k = x := Nat.xor_cancel_right k x
      rw [hx, ih kt (by simpa using hle)]

theorem cfbEncGo_length (blockE : Bytes → Bytes)
    (hB : ∀ x, (blockE x).length = aesBlockSize) :
    ∀ (fuel : Nat) (reg p : Bytes), p.length ≤ fuel →
      (cfbEncGo blockE fuel reg p).length = p.length := by
  intro fuel
  induction fuel with
  | zero =>
    intro reg p hp
    cases p with
    | nil => rfl
    | cons a l => simp at hp
  | succ n ih =>
    intro reg p hp
    cases p with
    | nil => rfl
    | cons a l =>
      have hA : aesBlockSize = 16 := rfl
      simp only [cfbEncGo, List.length_append, List.length_zipWith, hB,
        List.length_take]
      rw [ih _ _ (by simp only [List.length_drop, List.length_cons] at hp ⊢; omega)]
      simp only [List.length_drop, List.length_cons] at hp ⊢
      omega

theorem cfbDecGo_nil (blockE : Bytes → Bytes) (fuel : Nat) (reg : Bytes) :
    cfbDecGo blockE fuel reg [] = [] := by
  cases fuel <;> rfl

theorem cfbEncGo_nil (blockE : Bytes → Bytes) (fuel : Nat) (reg : Bytes) :
    cfbEncGo blockE fuel reg [] = [] := by
  cases fuel <;> rfl

theorem cfbDecGo_encGo (blockE : Bytes → Bytes)
    (hB : ∀ x, (blockE x).length = aesBlockSize) :
    ∀ (fuel : Nat) (reg p : Bytes), p.length ≤ fuel →
      cfbDecGo blockE fuel reg (cfbEncGo blockE fuel reg p) = p := by
  intro fuel
  induction fuel with
  | zero =>
    intro reg p hp
    cases p with
    | nil => rfl
    | cons a l => simp at hp
  | succ n ih =>
    intro reg p hp
    cases p with
    | nil => rfl
    | cons a l =>
      have hA : aesBlockSize = 16 := rfl
      have hks : (blockE reg).length = 16 := hB reg
      simp only [cfbEncGo]
      set c := List.zipWith Nat.xor ((a :: l).take aesBlockSize) (blockE reg)
        with hc
      set rest := cfbEncGo blockE n c ((a :: l).drop aesBlockSize) with hrest
      have hclen : c.length = min (a :: l).length 16 := by
        rw [hc, List.length_zipWith, List.length_take, hks]
        omega
      have hcpos : 0 < c.length := by
        rw [hclen]; simp
      obtain ⟨x, xs, hcx⟩ : ∃ x xs, c ++ rest = x :: xs := by
        cases hcr : c ++ rest with
        | nil =>
          exfalso
          have := List.length_append c rest
          rw [hcr] at this
          simp at this
          omega
        | cons x xs => exact ⟨x, xs, rfl⟩
      rw [hcx]
      simp only [cfbDecGo]
      rw [← hcx]
      by_cases hlen : (a :: l).length ≤ 16
      · have hdropnil : (a :: l).drop aesBlockSize = [] :=
          List.drop_eq_nil_of_le (by simpa [aesBlockSize] using hlen)
        have hrestnil : rest = [] := by
          rw [hrest, hdropnil, cfbEncGo_nil]
        have hclen16 : c.length ≤ 16 := by omega
        have htake : (c ++ rest).take aesBlockSize = c := by
          rw [hrestnil, List.append_nil]
          exact List.take_of_length_le (by simpa [aesBlockSize] using hclen16)
        have hdrop : (c ++ rest).drop aesBlockSize = [] := by
          rw [hrestnil, List.append_nil]
          exact List.drop_eq_nil_of_le (by simpa [aesBlockSize] using hclen16)
        rw [htake, hdrop, cfbDecGo_nil, List.append_nil, hc]
        have htakeall : (a :: l).take aesBlockSize = a :: l :=
          List.take_of_length_le (by simpa [aesBlockSize] using hlen)
        rw [htakeall]
        exact zipWith_xor_cancel (a :: l) (blockE reg) (by omega)
      · have hclen16 : c.length = 16 := by omega
        have htake : (c ++ rest).take aesBlockSize = c := by
          rw [List.take_append_of_le_length (by omega : aesBlockSize ≤ c.length)]
          exact List.take_of_length_le (by omega)
        have hdrop : (c ++ rest).drop aesBlockSize = rest := by
          have : (c ++ rest).drop aesBlockSize =
              c.drop aesBlockSize ++ rest.drop (aesBlockSize - c.length) := by
            rw [List.drop_append_eq_append_drop]
          rw [this, hclen16]
          simp [aesBlockSize, List.drop_eq_nil_of_le (le_of_eq hclen16)]
        rw [htake, hdrop]
        have hcancel : List.zipWith Nat.xor c (blockE reg) =
            (a :: l).take aesBlockSize := by
          rw [hc]
          exact zipWith_xor_cancel _ _
            (by rw [List.length_take, hks]; simp [aesBlockSize])
        have hrec : cfbDecGo blockE n c rest = (a :: l).drop aesBlockSize := by
          rw [hrest]
          exact ih c ((a :: l).drop aesBlockSize)
            (by simp [List.length_drop, aesBlockSize] at *; omega)
        rw [hcancel, hrec, List.take_append_drop]

theorem cfb_roundtrip (blockE : Bytes → Bytes)
    (hB : ∀ x, (blockE x).length = aesBlockSize) (iv p : Bytes) :
    cfbDecrypt blockE iv (cfbEncrypt blockE iv p) = p := by
  unfold cfbDecrypt cfbEncrypt
  rw [cfbEncGo_length blockE hB p.length iv p (le_refl _)]
  exact cfbDecGo_encGo blockE hB p.length iv p (le_refl _)

theorem cfbEncrypt_length (blockE : Bytes → Bytes)
    (hB : ∀ x, (blockE x).length = aesBlockSize) (iv p : Bytes) :
    (cfbEncrypt blockE iv p).length = p.length :=
  cfbEncGo_length blockE hB p.length iv p (le_refl _)


/-! ## Filesystem model

The facades resolve a root-relative path and act on a single file; the
model keeps the flat association of cleaned absolute paths to file
contents.  Directory creation (os.MkdirAll) always succeeds in the model
and is not tracked; advisory locks serialize the callers, so a single
call sees an unchanging map, which is exactly the state-transformer view
below. -/

/-- The filesystem: an association list from path to content. -/
abbrev FS := List (String × Bytes)

/-- Content stored at a path, if the file exists. -/
def fsLookup (fs : FS) (path : String) : Option Bytes :=
  match fs with
  | [] => none
  | e :: rest => if e.fst = path then some e.snd else fsLookup rest path

/-- Store content at a path, replacing an existing file or creating a
new one. -/
def fsSet (fs : FS) (path : String) (data : Bytes) : FS :=
  match fs with
  | [] => [(path, data)]
  | e :: rest =>
    if e.fst = path then (path, data) :: rest else e :: fsSet rest path data

/-- True when the second string starts with the first (character list
comparison). -/
def leadsWith (pre s : String) : Bool :=
  s.toList.take pre.toList.length == pre.toList

/-- os.RemoveAll: drop the path itself and everything below it; absent
paths are not an error. -/
def removeAllFS (fs : FS) (path : String) : FS :=
  fs.filter (fun e => !(e.fst == path || leadsWith (path ++ "/") e.fst))

/-- PlaintextStorage.Delete and EncryptedStorage.Delete: a plain
os.RemoveAll on the cleaned path, whose error is returned unchanged;
RemoveAll reports no error for a missing path. -/
def storageDelete (fs : FS) (path : String) : Except String FS :=
  Except.ok (removeAllFS fs path)

/-- Storage.DeleteFile of the older facade: os.Remove, which fails when
the path does not exist. -/
def storageDeleteFile (fs : FS) (path : String) : Except String FS :=
  match fsLookup fs path with
  | some _ => Except.ok (fs.filter (fun e => !(e.fst == path)))
  | none => Except.error "remove: no such file or directory"

/-- Stat errors distinguished by nodeExists: the absent-path error and
everything else. -/
inductive StatErr where
  | enoent
  | eacces
  | eio
deriving DecidableEq

/-- os.IsNotExist over the modelled stat errors. -/
def isNotExist : StatErr → Bool
  | StatErr.enoent => true
  | _ => false

/-- nodeExists of storage_common.go: syscall.Stat on the cleaned path;
nil error gives (true, nil), an is-not-exist error gives (false, nil),
any other error is surfaced as (false, err). -/
def nodeExists (stat : Option StatErr) : Bool × Option StatErr :=
  match stat with
  | none => (true, none)
  | some e => if isNotExist e then (false, none) else (false, some e)

/-- syscall.Stat against the filesystem model: present paths stat
cleanly, absent ones produce the not-exist error. -/
def statFS (fs : FS) (path : String) : Option StatErr :=
  match fsLookup fs path with
  | some _ => none
  | none => some StatErr.enoent

/-- Exists of both facades: nodeExists on the resolved path. -/
def storageExists (fs : FS) (path : String) : Bool × Option StatErr :=
  nodeExists (statFS fs path)

/-- touch of storage_common.go: create parent directories, then open
with O_RDONLY, O_CREATE and O_EXCL; the exclusive create fails when the
file already exists and otherwise creates it empty. -/
def touchFS (fs : FS) (path : String) : Option String × FS :=
  match fsLookup fs path with
  | some _ => (some "open: file exists", fs)
  | none => (none, fsSet fs path [])

/-- PlaintextStorage.WriteFile (the syscall revision): create parent
directories, open with O_CREAT, O_WRONLY and O_TRUNC under an exclusive
flock, and write all bytes. -/
def plaintextWriteFile (fs : FS) (path : String) (data : Bytes) :
    Except String FS :=
  Except.ok (fsSet fs path data)

/-- PlaintextStorage.ReadFileFully: open read only (failing when the
file is absent), fstat for the exact size and read that many bytes
under the lock. -/
def plaintextReadFileFully (fs : FS) (path : String) : Except String Bytes :=
  match fsLookup fs path with
  | none => Except.error "open: no such file or directory"
  | some c => Except.ok c

/-- EncryptedStorage.WriteFile (the syscall revision): encrypt the
payload, then create-or-truncate the file and write the ciphertext. -/
def encryptedWriteFile (blockE : Bytes → Bytes) (key iv : Bytes)
    (fs : FS) (path : String) (data : Bytes) : Except String FS :=
  match goEncrypt blockE key iv data with
  | Except.error e => Except.error e
  | Except.ok out => Except.ok (fsSet fs path out)

/-- EncryptedStorage.ReadFileFully: read the raw bytes exactly like the
plaintext facade, then decrypt them. -/
def encryptedReadFileFully (blockE : Bytes → Bytes) (key : Bytes)
    (fs : FS) (path : String) : Except String Bytes :=
  match fsLookup fs path with
  | none => Except.error "open: no such file or directory"
  | some buf => goDecrypt blockE key buf

/-- EncryptedStorage.AppendFile (the syscall revision, the current
code): open with O_CREAT, O_WRONLY and O_TRUNC — which truncates any
existing file to zero bytes at open time — fstat the now-truncated file,
read its content, decrypt it, build the tail buffer exactly as the
source does (make of length head+1 followed by two appends, so the
zero-filled prefix stays in place), re-encrypt and write.  Returns the
error, if any, together with the resulting filesystem. -/
def encryptedAppendFile (blockE : Bytes → Bytes) (key iv : Bytes)
    (fs : FS) (path : String) (data : Bytes) : Option String × FS :=
  let fs1 := fsSet fs path []
  let buf := (fsLookup fs1 path).getD []
  match goDecrypt blockE key buf with
  | Except.error e => (some e, fs1)
  | Except.ok head =>
    let tail := List.replicate (head.length + 1) 0 ++ head ++ data
    match goEncrypt blockE key iv tail with
    | Except.error e => (some e, fs1)
    | Except.ok out => (none, fsSet fs1 path out)

/-- EncryptedStorage.AppendFile of the delegating revision: read the
stored bytes through the underlying plaintext facade (failing when the
file is absent), decrypt, build the same zero-prefixed tail buffer,
re-encrypt, and hand the result to UpdateFile, which truncate-writes an
existing file and fails when it is absent. -/
def encryptedAppendFileDelegating (blockE : Bytes → Bytes) (key iv : Bytes)
    (fs : FS) (path : String) (data : Bytes) : Option String × FS :=
  match plaintextReadFileFully fs path with
  | Except.error e => (some e, fs)
  | Except.ok stored =>
    match goDecrypt blockE key stored with
    | Except.error e => (some e, fs)
    | Except.ok head =>
      let tail := List.replicate (head.length + 1) 0 ++ head ++ data
      match goEncrypt blockE key iv tail with
      | Except.error e => (some e, fs)
      | Except.ok out =>
        match fsLookup fs path with
        | none => (some "open: no such file or directory", fs)
        | some _ => (none, fsSet fs path out)

/-- EncryptedStorage.WriteFile of the delegating revision, which
encrypts and then calls storage.WriteFile — itself — instead of the
underlying plaintext WriteFile.  The recursion never reaches a base
case; the fuel argument makes the model total, with none standing for
a call that is still recursing when the fuel runs out. -/
def encryptedWriteFileDelegating (blockE : Bytes → Bytes) (key iv : Bytes) :
    Nat → FS → String → Bytes → Option (Except String FS)
  | 0, _, _, _ => none
  | fuel + 1, fs, path, data =>
    match goEncrypt blockE key iv data with
    | Except.error e => some (Except.error e)
    | Except.ok out => encryptedWriteFileDelegating blockE key iv fuel fs path out

/-! ## Directory enumeration model

listDirectory and countFiles read raw dirent records into a scratch
buffer and walk it by pointer arithmetic.  The model walks the same
bytes: a record starts at the cursor, its inode is the 8-byte
little-endian value at offset 0, its record length the 2-byte value at
offset 16, its type tag the byte at offset 18, and its name the bytes
from offset 19 up to the record length, truncated at the first NUL.
The Go loop advances with a slice expression whose index is the record
length; when that exceeds the remaining bytes the slice expression is
out of range, which is a runtime panic, and a record length of zero
never advances the cursor at all. -/

/-- Little-endian value of n bytes at the given offset; bytes past the
end of the buffer read as zero. -/
def readLE (buf : Bytes) : Nat → Nat → Nat
  | _, 0 => 0
  | off, n + 1 => buf.getD off 0 + 256 * readLE buf (off + 1) n

/-- Offset of the name field inside a dirent record, the Offsetof value
of the syscall.Dirent Name field on linux amd64. -/
def direntNameOff : Nat := 19

/-- DT_REG, the regular-file type tag. -/
def dtReg : Nat := 8

/-- Name bytes of the record at the head of the buffer: record length
minus the header offset many bytes, cut at the first NUL byte exactly
as bytes.IndexByte does in nameFromDirent. -/
def direntName (buf : Bytes) (reclen : Nat) : Bytes :=
  let raw := (buf.drop direntNameOff).take (reclen - direntNameOff)
  match raw.findIdx? (fun b => b == 0) with
  | some i => raw.take i
  | none => raw

/-- The three name filters of the listing loop: empty names,
single-dot and double-dot are discarded. -/
def keepName : Bytes → Bool
  | [] => false
  | [c] => !(c == 46)
  | [c1, c2] => !(c1 == 46 && c2 == 46)
  | _ => true

/-- Outcome of walking one scratch buffer of records: the surviving
names in encounter order, a Go runtime panic from the out-of-range
slice, or a loop that never terminates. -/
inductive ScanOutcome where
  | ok (entries : List Bytes)
  | panic
  | hang
deriving DecidableEq

/-- Outcome of the counting walk. -/
inductive CountOutcome where
  | ok (n : Nat)
  | panic
  | hang
deriving DecidableEq

/-- The record walk of listDirectory over one buffer.  Fuel is always
the buffer length; a positive record length consumes at least one byte
per step, so fuel only runs out on the paths already mapped to hang. -/
def scanGo : Nat → Bytes → ScanOutcome
  | _, [] => ScanOutcome.ok []
  | 0, _ :: _ => ScanOutcome.hang
  | fuel + 1, b :: bs =>
    let buf := b :: bs
    let ino := readLE buf 0 8
    let reclen := readLE buf 16 2
    if buf.length < reclen then ScanOutcome.panic
    else if reclen = 0 then ScanOutcome.hang
    else
      match scanGo fuel (buf.drop reclen) with
      | ScanOutcome.ok rest =>
        if ino = 0 then ScanOutcome.ok rest
        else
          let name := direntName buf reclen
          if keepName name then ScanOutcome.ok (name :: rest)
          else ScanOutcome.ok rest
      | r => r

/-- Entry point of the record walk, fuel fixed to the buffer length. -/
def scanRecords (buf : Bytes) : ScanOutcome :=
  scanGo buf.length buf

/-- The record walk of countFiles: identical traversal, counting only
records whose inode is nonzero and whose type tag is DT_REG. -/
def countGo : Nat → Bytes → CountOutcome
  | _, [] => CountOutcome.ok 0
  | 0, _ :: _ => CountOutcome.hang
  | fuel + 1, b :: bs =>
    let buf := b :: bs
    let ino := readLE buf 0 8
    let reclen := readLE buf 16 2
    let typ := buf.getD 18 0
    if buf.length < reclen then CountOutcome.panic
    else if reclen = 0 then CountOutcome.hang
    else
      match countGo fuel (buf.drop reclen) with
      | CountOutcome.ok n =>
        if ino = 0 ∨ typ ≠ dtReg then CountOutcome.ok n
        else CountOutcome.ok (n + 1)
      | r => r

/-- Entry point of the counting walk. -/
def countRecords (buf : Bytes) : CountOutcome :=
  countGo buf.length buf

/-- Bytewise lexicographic comparison of names, the order induced by
the Go string comparison used in the sort closures of listDirectory. -/
def lexLe : Bytes → Bytes → Bool
  | [], _ => true
  | _ :: _, [] => false
  | a :: as, b :: bs =>
    if a < b then true
    else if b < a then false
    else lexLe as bs

/-- The ascending comparator of the listing sort. -/
def ascRel (a b : Bytes) : Prop := lexLe a b = true

/-- The descending comparator of the listing sort. -/
def descRel (a b : Bytes) : Prop := lexLe b a = true

instance : DecidableRel ascRel := fun a b =>
  inferInstanceAs (Decidable (lexLe a b = true))

instance : DecidableRel descRel := fun a b =>
  inferInstanceAs (Decidable (lexLe b a = true))

theorem lexLe_total : ∀ a b : Bytes, lexLe a b = true ∨ lexLe b a = true := by
  intro a
  induction a with
  | nil => intro b; left; rfl
  | cons x xs ih =>
    intro b
    cases b with
    | nil => right; rfl
    | cons y ys =>
      by_cases hxy : x < y
      · left; simp [lexLe, hxy]
      · by_cases hyx : y < x
        · right; simp [lexLe, hyx]
        · have hx : ¬ x < y := hxy
          cases ih ys with
          | inl h => left; simp [lexLe, hxy, hyx, h]
          | inr h => right; simp [lexLe, hxy, hyx, h]

theorem lexLe_trans :
    ∀ a b c : Bytes, lexLe a b = true → lexLe b c = true → lexLe a c = true := by
  intro a
  induction a with
  | nil => intro b c _ _; rfl
  | cons x xs ih =>
    intro b c hab hbc
    cases b with
    | nil => simp [lexLe] at hab
    | cons y ys =>
      cases c with
      | nil => simp [lexLe] at hbc
      | cons z zs =>
        simp only [lexLe] at hab hbc ⊢
        by_cases hxy : x < y
        · by_cases hyz : y < z
          · simp [show x < z by omega]
          · by_cases hzy : z < y
            · simp only [if_pos hxy] at hab
              simp only [if_neg hyz, if_pos hzy] at hbc
              exact absurd hbc (by simp)
            · have : y = z := by omega
              subst this
              simp [hxy]
        · by_cases hyx : y < x
          · simp only [if_neg hxy, if_pos hyx] at hab
            exact absurd hab (by simp)
          · have hxyeq : x = y := by omega
            subst hxyeq
            simp only [if_neg hxy] at hab
            by_cases hyz : x < z
            · simp [hyz]
            · by_cases hzy : z < x
              · simp only [if_neg hyz, if_pos hzy] at hbc
                exact absurd hbc (by simp)
              · simp only [if_neg hyz, if_neg hzy] at hbc ⊢
                exact ih ys zs hab hbc

instance : IsTotal Bytes ascRel := ⟨lexLe_total⟩

instance : IsTrans Bytes ascRel := ⟨fun a b c => lexLe_trans a b c⟩

instance : IsTotal Bytes descRel :=
  ⟨fun a b => (lexLe_total b a).elim Or.inl Or.inr⟩

instance : IsTrans Bytes descRel :=
  ⟨fun a b c hab hbc => lexLe_trans c b a hbc hab⟩

/-- listDirectory over one scratch buffer: walk the records, then sort
the surviving names with the ascending or descending comparator
(sort.Slice with the string less-than closures of the source). -/
def listRecords (buf : Bytes) (ascending : Bool) : ScanOutcome :=
  match scanRecords buf with
  | ScanOutcome.ok names =>
    if ascending then ScanOutcome.ok (List.insertionSort ascRel names)
    else ScanOutcome.ok (List.insertionSort descRel names)
  | r => r

/-! ## Helper lemmas about the filesystem model and the codec -/

theorem fsLookup_fsSet (fs : FS) (path : String) (data : Bytes) :
    fsLookup (fsSet fs path data) path = some data := by
  induction fs with
  | nil => simp [fsSet, fsLookup]
  | cons e rest ih =>
    by_cases h : e.fst = path
    · simp [fsSet, fsLookup, h]
    · simp [fsSet, fsLookup, h, ih]

theorem goEncrypt_ok_goDecrypt (blockE : Bytes → Bytes) (key iv m : Bytes)
    (hk : aesKeyOk key = true) (hiv : iv.length = aesBlockSize)
    (hB : ∀ x, (blockE x).length = aesBlockSize) :
    goEncrypt blockE key iv m = Except.ok (iv ++ cfbEncrypt blockE iv m) ∧
    (iv ++ cfbEncrypt blockE iv m).length = m.length + aesBlockSize ∧
    goDecrypt blockE key (iv ++ cfbEncrypt blockE iv m) = Except.ok m := by
  have hA : aesBlockSize = 16 := rfl
  have hclen : (cfbEncrypt blockE iv m).length = m.length :=
    cfbEncrypt_length blockE hB iv m
  have hlen : (iv ++ cfbEncrypt blockE iv m).length = m.length + aesBlockSize := by
    rw [List.length_append, hiv, hclen]; omega
  refine ⟨by simp [goEncrypt, hk], hlen, ?_⟩
  unfold goDecrypt
  rw [if_pos hk, if_neg (by omega)]
  have htake : (iv ++ cfbEncrypt blockE iv m).take aesBlockSize = iv := by
    rw [List.take_append_of_le_length (by omega)]
    exact List.take_of_length_le (by omega)
  have hdrop : (iv ++ cfbEncrypt blockE iv m).drop aesBlockSize =
      cfbEncrypt blockE iv m := by
    rw [List.drop_append_eq_append_drop, List.drop_eq_nil_of_le (by omega)]
    rw [hiv, hA]
    simp
  rw [htake, hdrop, cfb_roundtrip blockE hB iv m]

/-! ## Concrete instances used by the witnesses and counterexamples -/

/-- A concrete 16-byte block function standing for the AES permutation
of a fixed key; any function of constant output length 16 inhabits the
interface the proofs assume. -/
def cBlock : Bytes → Bytes := fun _ => List.replicate 16 7

/-- A concrete valid 32-byte AES key. -/
def cKey : Bytes := List.replicate 32 1

/-- A concrete 16-byte IV standing for one draw from the random source. -/
def cIV : Bytes := List.replicate 16 2

/-- The bytes of the string abc. -/
def bytesAbc : Bytes := [97, 98, 99]

/-- The bytes of the string def. -/
def bytesDef : Bytes := [100, 101, 102]

/-- The bytes of the string abcdef. -/
def bytesAbcdef : Bytes := [97, 98, 99, 100, 101, 102]

/-! ## Claims -/

/-- C3: for every byte sequence m and every valid AES-length key,
decrypting an encryption of m returns m, and the ciphertext is exactly
16 bytes (the IV length) longer than m.  Stated over any block function
of the AES block width and any 16-byte IV drawn by the random source. -/
theorem C3_encrypt_decrypt_roundtrip (blockE : Bytes → Bytes)
    (key iv m : Bytes) (hk : aesKeyOk key = true)
    (hiv : iv.length = aesBlockSize)
    (hB : ∀ x, (blockE x).length = aesBlockSize) :
    ∃ c, goEncrypt blockE key iv m = Except.ok c ∧
      c.length = m.length + aesBlockSize ∧
      goDecrypt blockE key c = Except.ok m := by
  obtain ⟨henc, hlen, hdec⟩ := goEncrypt_ok_goDecrypt blockE key iv m hk hiv hB
  exact ⟨iv ++ cfbEncrypt blockE iv m, henc, hlen, hdec⟩

/-- Witness for C3 at a concrete key, IV, block function and message. -/
theorem C3_encrypt_decrypt_roundtrip_witness :
    aesKeyOk cKey = true ∧ cIV.length = aesBlockSize ∧
    ∃ c, goEncrypt cBlock cKey cIV [10, 20, 30] = Except.ok c ∧
      c.length = [10, 20, 30].length + aesBlockSize ∧
      goDecrypt cBlock cKey c = Except.ok [10, 20, 30] :=
  ⟨by decide, by decide,
    C3_encrypt_decrypt_roundtrip cBlock cKey cIV [10, 20, 30]
      (by decide) (by decide) (fun x => by simp [cBlock, aesBlockSize])⟩

/-- C1: the claim is that appending abc and then def to an initially
absent (or empty) encrypted file and then reading fully yields abcdef.
The code refutes it: AppendFile opens with O_TRUNC, so the freshly
created (or truncated) file has size zero, the decrypt of the empty
buffer fails with the invalid-blocksize error, the first append already
returns an error, and the final read, run after both appends as the
claim prescribes, also fails rather than producing abcdef.  The
delegating revision of AppendFile likewise fails on its first call
because the underlying read of the absent file errors. -/
theorem C1_append_abc_def_read_fails :
    (encryptedAppendFile cBlock cKey cIV [] "foo" bytesAbc).fst =
      some "invalid blocksize expected 16 but actual is 0" ∧
    encryptedReadFileFully cBlock cKey
      (encryptedAppendFile cBlock cKey cIV
        (encryptedAppendFile cBlock cKey cIV [] "foo" bytesAbc).snd
        "foo" bytesDef).snd "foo" =
      Except.error "invalid blocksize expected 16 but actual is 0" ∧
    (encryptedAppendFileDelegating cBlock cKey cIV [] "foo" bytesAbc).fst =
      some "open: no such file or directory" := by
  refine ⟨?_, ?_, ?_⟩ <;> rfl

/-- C2: the claim is that a failing AppendFile leaves the stored file
unchanged.  The code refutes it: the O_TRUNC open of AppendFile
truncates the existing 20-byte file before anything is read, the
subsequent decrypt of the now-empty buffer fails, and the call returns
an error with the original content already destroyed. -/
theorem C2_append_failure_destroys_content :
    (encryptedAppendFile cBlock cKey cIV
      [("bar", List.replicate 20 5)] "bar" bytesAbc).fst =
      some "invalid blocksize expected 16 but actual is 0" ∧
    fsLookup (encryptedAppendFile cBlock cKey cIV
      [("bar", List.replicate 20 5)] "bar" bytesAbc).snd "bar" = some [] ∧
    (List.replicate 20 5 : Bytes) ≠ [] := by
  refine ⟨by decide, by decide, by decide⟩

/-- 75000 bytes of payload, the size the specified write-then-read
property uses. -/
def data75000 : Bytes := List.replicate 75000 7

theorem encryptedWriteFileDelegating_none (blockE : Bytes → Bytes)
    (iv : Bytes) :
    ∀ (fuel : Nat) (fs : FS) (path : String) (data : Bytes),
      encryptedWriteFileDelegating blockE cKey iv fuel fs path data = none := by
  intro fuel
  induction fuel with
  | zero => intro fs path data; rfl
  | succ n ih =>
    intro fs path data
    have hk : aesKeyOk cKey = true := by decide
    simp only [encryptedWriteFileDelegating, goEncrypt, hk, if_true]
    exact ih fs path _

/-- C4: the claim is that a truncate-or-create write followed by a full
read returns the identical 75000 bytes through both facades, and in
particular that the encrypted WriteFile terminates.  The plaintext
facade and the syscall revision of the encrypted facade satisfy the
round trip (second and third conjuncts), but the delegating revision of
EncryptedStorage.WriteFile calls itself instead of the underlying
plaintext WriteFile, so no amount of fuel lets it finish: it never
stores anything and never returns (first conjunct), contradicting the
own test TestReadFileFullyEncrypted of the repository. -/
theorem C4_write_read_75000 :
    (∀ (blockE : Bytes → Bytes) (iv : Bytes) (fuel : Nat) (fs : FS)
        (path : String) (data : Bytes),
      encryptedWriteFileDelegating blockE cKey iv fuel fs path data = none) ∧
    (∀ (fs : FS) (path : String), ∃ fs2,
      plaintextWriteFile fs path data75000 = Except.ok fs2 ∧
      plaintextReadFileFully fs2 path = Except.ok data75000 ∧
      data75000.length = 75000) ∧
    (∀ (fs : FS) (path : String), ∃ fs2,
      encryptedWriteFile cBlock cKey cIV fs path data75000 = Except.ok fs2 ∧
      encryptedReadFileFully cBlock cKey fs2 path = Except.ok data75000) := by
  refine ⟨fun blockE iv => encryptedWriteFileDelegating_none blockE iv, ?_, ?_⟩
  · intro fs path
    have hlen : data75000.length = 75000 := List.length_replicate 75000 7
    refine ⟨fsSet fs path data75000, rfl, ?_, hlen⟩
    simp [plaintextReadFileFully, fsLookup_fsSet]
  · intro fs path
    obtain ⟨henc, _, hdec⟩ :=
      goEncrypt_ok_goDecrypt cBlock cKey cIV data75000 (by decide) (by decide)
        (fun x => by simp [cBlock, aesBlockSize])
    refine ⟨fsSet fs path (cIV ++ cfbEncrypt cBlock cIV data75000), ?_, ?_⟩
    · simp [encryptedWriteFile, henc]
    · simp [encryptedReadFileFully, fsLookup_fsSet, hdec]

/-- A record stream whose single record announces a record length of
200 while only 21 bytes remain: inode 1, offset 0, reclen 200, type
DT_REG, a one-character name and its NUL. -/
def badRecBuf : Bytes :=
  [1, 0, 0, 0, 0, 0, 0, 0,
   0, 0, 0, 0, 0, 0, 0, 0,
   200, 0, 8, 65, 0]

/-- C5 counterexample: the claim is that a record length exceeding the
remaining buffer makes listing and counting return a Corrupt error.  On
this concrete buffer both walks instead hit the out-of-range slice
expression, a Go runtime panic, and no error value is ever returned:
the outcome is the panic marker, not an ok or error result. -/
theorem C5_oversized_reclen_panics :
    scanRecords badRecBuf = ScanOutcome.panic ∧
    countRecords badRecBuf = CountOutcome.panic := by
  refine ⟨by decide, by decide⟩

/-- C5 amended: whenever the record at the head of a nonempty buffer
announces a record length larger than the remaining bytes, listing and
counting do not return an error value: the walk ends in the runtime
panic of the out-of-range slice expression. -/
theorem C5_oversized_reclen_panics_general (buf : Bytes)
    (hne : buf ≠ []) (hover : buf.length < readLE buf 16 2) :
    scanRecords buf = ScanOutcome.panic ∧
    countRecords buf = CountOutcome.panic := by
  cases buf with
  | nil => exact absurd rfl hne
  | cons b bs =>
    constructor
    · show scanGo (b :: bs).length (b :: bs) = ScanOutcome.panic
      simp only [List.length_cons, scanGo]
      rw [if_pos (by simpa using hover)]
    · show countGo (b :: bs).length (b :: bs) = CountOutcome.panic
      simp only [List.length_cons, countGo]
      rw [if_pos (by simpa using hover)]

/-- Witness for the amended C5 at the concrete malformed buffer. -/
theorem C5_oversized_reclen_panics_general_witness :
    badRecBuf ≠ [] ∧ badRecBuf.length < readLE badRecBuf 16 2 ∧
    (scanRecords badRecBuf = ScanOutcome.panic ∧
     countRecords badRecBuf = CountOutcome.panic) :=
  ⟨by decide, by decide,
    C5_oversized_reclen_panics_general badRecBuf (by decide) (by decide)⟩

theorem fsLookup_removeAllFS (fs : FS) (path q : String)
    (h : (q == path || leadsWith (path ++ "/") q) = true) :
    fsLookup (removeAllFS fs path) q = none := by
  induction fs with
  | nil => rfl
  | cons e rest ih =>
    simp only [removeAllFS, List.filter] at ih ⊢
    by_cases hf : (!(e.fst == path || leadsWith (path ++ "/") e.fst)) = true
    · rw [hf]
      have hne : ¬ e.fst = q := by
        intro hq
        subst hq
        rw [h] at hf
        simp at hf
      simp only [fsLookup, if_neg hne]
      exact ih
    · simp only [Bool.not_eq_true] at hf
      rw [hf]
      exact ih

/-- C6 counterexample: the claim says Delete fails with NotFound when
the path is absent; on the empty filesystem the facade Delete (an
os.RemoveAll call) succeeds with no error instead. -/
theorem C6_delete_absent_succeeds :
    storageDelete ([] : FS) "foo" = Except.ok [] ∧
    ∀ e, storageDelete ([] : FS) "foo" ≠ Except.error e := by
  exact ⟨rfl, fun e h => Except.noConfusion h⟩

/-- C6 amended: Delete always succeeds, returning the filesystem with
the path and everything below it removed — in particular, an absent
path is a silent no-op, not a NotFound error; only the legacy
DeleteFile, which uses os.Remove, fails on an absent path. -/
theorem C6_delete_semantics (fs : FS) (path : String) :
    storageDelete fs path = Except.ok (removeAllFS fs path) ∧
    fsLookup (removeAllFS fs path) path = none ∧
    (fsLookup fs path = none →
      storageDeleteFile fs path =
        Except.error "remove: no such file or directory") := by
  refine ⟨rfl, ?_, ?_⟩
  · exact fsLookup_removeAllFS fs path path (by simp)
  · intro h
    simp [storageDeleteFile, h]

/-- Witness for the amended C6 on a filesystem holding one file. -/
theorem C6_delete_semantics_witness :
    storageDelete [("a", [1])] "a" = Except.ok (removeAllFS [("a", [1])] "a") ∧
    fsLookup (removeAllFS [("a", [1])] "a") "a" = none ∧
    storageDeleteFile ([] : FS) "a" =
      Except.error "remove: no such file or directory" :=
  ⟨(C6_delete_semantics [("a", [1])] "a").1,
   (C6_delete_semantics [("a", [1])] "a").2.1,
   (C6_delete_semantics ([] : FS) "a").2.2 rfl⟩

/-- C8: Exists reports (false, no error) for an absent path, (true, no
error) for a present one, and surfaces the stat error itself only when
it is something other than the does-not-exist error. -/
theorem C8_exists_semantics (fs : FS) (path : String) :
    (fsLookup fs path = none → storageExists fs path = (false, none)) ∧
    (∀ c, fsLookup fs path = some c → storageExists fs path = (true, none)) ∧
    (∀ e, isNotExist e = false → nodeExists (some e) = (false, some e)) := by
  refine ⟨?_, ?_, ?_⟩
  · intro h
    simp [storageExists, statFS, nodeExists, h, isNotExist]
  · intro c h
    simp [storageExists, statFS, nodeExists, h]
  · intro e he
    simp [nodeExists, he]

/-- Witness for C8 on a present file, an absent file, and a
permission-style stat failure. -/
theorem C8_exists_semantics_witness :
    storageExists ([] : FS) "f" = (false, none) ∧
    storageExists [("f", [1])] "f" = (true, none) ∧
    nodeExists (some StatErr.eacces) = (false, some StatErr.eacces) :=
  ⟨(C8_exists_semantics ([] : FS) "f").1 rfl,
   (C8_exists_semantics [("f", [1])] "f").2.1 [1] rfl,
   (C8_exists_semantics ([] : FS) "f").2.2 StatErr.eacces rfl⟩

/-- C9: TouchFile opens with O_CREATE and O_EXCL, so touching an
existing file fails with the already-exists error and leaves the
stored content untouched. -/
theorem C9_touch_existing_fails (fs : FS) (path : String) (c : Bytes)
    (h : fsLookup fs path = some c) :
    touchFS fs path = (some "open: file exists", fs) ∧
    fsLookup (touchFS fs path).snd path = some c := by
  constructor
  · simp [touchFS, h]
  · simp [touchFS, h]

/-- Witness for C9 on a one-file filesystem. -/
theorem C9_touch_existing_fails_witness :
    touchFS [("t", [9])] "t" = (some "open: file exists", [("t", [9])]) ∧
    fsLookup (touchFS [("t", [9])] "t").snd "t" = some [9] :=
  C9_touch_existing_fails [("t", [9])] "t" [9] rfl

/-- C10: reading an encrypted file whose stored size is below the
16-byte IV length always returns an error — the decrypt rejects the
short buffer (or the key itself) — and an empty file just created by
TouchFile is such a file. -/
theorem C10_read_short_file_errors (blockE : Bytes → Bytes) (key : Bytes)
    (fs : FS) (path : String) :
    (∀ c, fsLookup fs path = some c → c.length < aesBlockSize →
      ∃ e, encryptedReadFileFully blockE key fs path = Except.error e) ∧
    (fsLookup fs path = none →
      ∃ e, encryptedReadFileFully blockE key (touchFS fs path).snd path =
        Except.error e) := by
  constructor
  · intro c h hlen
    simp only [encryptedReadFileFully, h]
    unfold goDecrypt
    by_cases hk : aesKeyOk key = true
    · rw [if_pos hk, if_pos hlen]
      exact ⟨_, rfl⟩
    · rw [if_neg hk]
      exact ⟨_, rfl⟩
  · intro h
    simp only [touchFS, h]
    simp only [encryptedReadFileFully, fsLookup_fsSet]
    unfold goDecrypt
    by_cases hk : aesKeyOk key = true
    · rw [if_pos hk, if_pos (by decide : ([] : Bytes).length < aesBlockSize)]
      exact ⟨_, rfl⟩
    · rw [if_neg hk]
      exact ⟨_, rfl⟩

/-- Witness for C10: a stored 3-byte file and a freshly touched file
both fail to read back through the encrypted facade. -/
theorem C10_read_short_file_errors_witness :
    (∃ e, encryptedReadFileFully cBlock cKey [("s", [1, 2, 3])] "s" =
      Except.error e) ∧
    (∃ e, encryptedReadFileFully cBlock cKey
      (touchFS ([] : FS) "n").snd "n" = Except.error e) :=
  ⟨(C10_read_short_file_errors cBlock cKey [("s", [1, 2, 3])] "s").1
      [1, 2, 3] rfl (by decide),
   (C10_read_short_file_errors cBlock cKey ([] : FS) "n").2 rfl⟩

/-! ## Concrete directory buffer for the listing claim -/

/-- Little-endian byte encoding of a value into a fixed number of
bytes. -/
def leBytes : Nat → Nat → Bytes
  | 0, _ => []
  | n + 1, v => v % 256 :: leBytes n (v / 256)

/-- The ten-digit zero-padded decimal name of n, as its byte values. -/
def decName (n : Nat) : Bytes :=
  (List.range 10).reverse.map (fun i => 48 + n / 10 ^ i % 10)

/-- One raw dirent record: inode, offset, record length, type tag, the
name bytes and their NUL terminator. -/
def mkDirentRec (ino typ : Nat) (name : Bytes) : Bytes :=
  let reclen := direntNameOff + name.length + 1
  leBytes 8 ino ++ leBytes 8 0 ++ leBytes 2 reclen ++ [typ] ++ name ++ [0]

/-- A scratch buffer holding the records of the 11 files named
0000000000 through 0000000010, deliberately in reverse encounter
order so the sort has work to do. -/
def buf11 : Bytes :=
  (((List.range 11).reverse).map (fun n => mkDirentRec 1 dtReg (decName n))).flatten

/-- The 11 names in ascending lexicographic order. -/
def ascTarget : List Bytes := (List.range 11).map decName

set_option maxRecDepth 20000 in
/-- C7: listing the directory of the 11 files 0000000000 through
0000000010 with ascending order returns exactly those names in that
order, descending returns the exact reverse, and in general every
successful listing is sorted by the comparator the flag selects. -/
theorem C7_listing_sorted :
    listRecords buf11 true = ScanOutcome.ok ascTarget ∧
    listRecords buf11 false = ScanOutcome.ok ascTarget.reverse ∧
    (∀ (buf : Bytes) (names : List Bytes),
      listRecords buf true = ScanOutcome.ok names → names.Sorted ascRel) ∧
    (∀ (buf : Bytes) (names : List Bytes),
      listRecords buf false = ScanOutcome.ok names → names.Sorted descRel) := by
  refine ⟨by decide, by decide, ?_, ?_⟩
  · intro buf names h
    unfold listRecords at h
    cases hscan : scanRecords buf with
    | ok ns =>
      rw [hscan] at h
      simp only [if_pos rfl, if_true] at h
      cases h
      exact List.sorted_insertionSort ascRel ns
    | panic => rw [hscan] at h; cases h
    | hang => rw [hscan] at h; cases h
  · intro buf names h
    unfold listRecords at h
    cases hscan : scanRecords buf with
    | ok ns =>
      rw [hscan] at h
      simp only [Bool.false_eq_true, if_false] at h
      cases h
      exact List.sorted_insertionSort descRel ns
    | panic => rw [hscan] at h; cases h
    | hang => rw [hscan] at h; cases h

/-- Witness for C7: the general sortedness conjuncts applied to the
concrete eleven-record buffer, hypotheses discharged by the computed
first conjunct. -/
theorem C7_listing_sorted_witness :
    ascTarget.Sorted ascRel ∧ ascTarget.reverse.Sorted descRel :=
  ⟨C7_listing_sorted.2.2.1 buf11 ascTarget C7_listing_sorted.1,
   C7_listing_sorted.2.2.2 buf11 ascTarget.reverse C7_listing_sorted.2.1⟩
